import Mathlib

/-!
Verification development for the devflow-chronicle commit-analytics pipeline.

Shallow embedding of the core modules:
* `GitParser.group_into_sessions` and `GitParser.analyze_temporal_patterns`
  (src/git_parser.py),
* `QualityScorer` (src/quality_scorer.py), scores modelled over `ℚ`
  (the Python source uses IEEE floats; at the decimal values involved the
  two agree on every comparison appearing in the theorems below),
* `CacheManager.get` / `CacheManager.set` (src/cache_manager.py), the
  on-disk cache directory modelled as an association list from file key to
  stored content, with explicit state passing and an explicit `now` clock.

Timestamps are modelled as integer seconds (Python `datetime` values; a
`timedelta(hours=h)` comparison becomes a comparison against `3600 * h`
seconds).
-/

/-- A commit record as built by `GitParser.get_recent_commits`
(src/git_parser.py, lines 56-68).  Only the fields the analytics core
reads are included; `timestamp` is in integer seconds. -/
structure Commit where
  message : String
  timestamp : Int
  files_changed : Nat
  insertions : Nat
  deletions : Nat
  files : List String
deriving DecidableEq, Repr

namespace Config

/-- src/config.py line 44: `CACHE_MAX_AGE_HOURS` (default of the env lookup). -/
def CACHE_MAX_AGE_HOURS : Int := 24

/-- src/config.py line 48. -/
def QUALITY_THRESHOLD_LOW : ℚ := 0.6

/-- src/config.py line 49. -/
def QUALITY_THRESHOLD_HIGH : ℚ := 0.8

/-- src/config.py line 50. -/
def SIZE_SMALL : Nat := 50

/-- src/config.py line 51. -/
def SIZE_MEDIUM : Nat := 200

/-- src/config.py line 52. -/
def SIZE_LARGE : Nat := 500

end Config

namespace GitParser

/-- The sort key of `sorted(commits, key=lambda x: x['timestamp'])`
(src/git_parser.py line 91). -/
def timeLE (a b : Commit) : Prop := a.timestamp ≤ b.timestamp

instance : DecidableRel timeLE := fun a b => Int.decLe a.timestamp b.timestamp

instance : IsTotal Commit timeLE := ⟨fun a b => Int.le_total a.timestamp b.timestamp⟩

instance : IsTrans Commit timeLE := ⟨fun _ _ _ hab hbc => le_trans hab hbc⟩

/-- Python's `sorted` is a stable comparison sort; it is modelled by
`List.insertionSort` (also stable, hence extensionally the same function
on the `timestamp` key). -/
def sortByTimestamp (commits : List Commit) : List Commit :=
  List.insertionSort timeLE commits

/-- The loop of `group_into_sessions` (src/git_parser.py lines 96-108).
`p` is the last commit of the current session (`current_session[-1]`) and
`ps` the rest of the current session in reverse, so the current session is
`(p :: ps).reverse`; `gapSecs` is `timedelta(hours=gap_hours)` in seconds.
Sessions are emitted in chronological construction order. -/
def sessionsAux (gapSecs : Int) : Commit → List Commit → List Commit → List (List Commit)
  | p, ps, [] => [(p :: ps).reverse]
  | p, ps, c :: rest =>
    if gapSecs < c.timestamp - p.timestamp then
      -- time_gap > timedelta(hours=gap_hours): start new session
      (p :: ps).reverse :: sessionsAux gapSecs c [] rest
    else
      -- continue current session
      sessionsAux gapSecs c (p :: ps) rest

/-- `GitParser.group_into_sessions` (src/git_parser.py lines 76-111):
sort ascending by timestamp, split where the gap to the previous commit
strictly exceeds `gap_hours` hours, and return the sessions most recent
first (`sessions[::-1]`).  The Python function performs no validation of
`gap_hours` and raises nothing, so the embedding is total. -/
def group_into_sessions (commits : List Commit) (gap_hours : Int) : List (List Commit) :=
  match sortByTimestamp commits with
  | [] => []
  | c :: rest => (sessionsAux (3600 * gap_hours) c [] rest).reverse

/-- `timestamp.hour` (src/git_parser.py line 169), with `timestamp`
modelled as epoch seconds.  `datetime.fromtimestamp` applies a fixed
timezone offset, which only shifts which commits share an hour and is
immaterial to the claims below. -/
def hourOf (c : Commit) : Nat := ((c.timestamp / 3600) % 24).toNat

/-- Key insertion of `defaultdict`: a Python dict keeps keys in first
insertion order. -/
def insertKey (ks : List Nat) (h : Nat) : List Nat :=
  if h ∈ ks then ks else ks ++ [h]

/-- The keys of the `hours` defaultdict (src/git_parser.py lines 163-169),
in first-occurrence order over the input commit list. -/
def hourKeys (commits : List Commit) : List Nat :=
  commits.foldl (fun ks c => insertKey ks (hourOf c)) []

/-- The count stored in the `hours` defaultdict for hour `h`. -/
def hourCount (commits : List Commit) (h : Nat) : Nat :=
  commits.countP (fun c => hourOf c == h)

/-- `hours.items()`: (hour, count) pairs in dict insertion order. -/
def hourItems (commits : List Commit) : List (Nat × Nat) :=
  (hourKeys commits).map (fun h => (h, hourCount commits h))

/-- Python's `max(..., key=lambda x: x[1])`: fold keeping the current
maximum, replacing it only on a strictly greater value, so the first
maximal element of the iteration wins. -/
def maxByCount : (Nat × Nat) → List (Nat × Nat) → (Nat × Nat)
  | best, [] => best
  | best, x :: xs => maxByCount (if best.2 < x.2 then x else best) xs

/-- `peak_hour = max(hours.items(), key=lambda x: x[1])[0] if hours else 0`
(src/git_parser.py line 174). -/
def peak_hour (commits : List Commit) : Nat :=
  match hourItems commits with
  | [] => 0
  | x :: xs => (maxByCount x xs).1

/-- Two commits may be adjacent inside one session: chronological order
and a gap of at most `gapSecs` seconds. -/
def withinSession (gapSecs : Int) (a b : Commit) : Prop :=
  a.timestamp ≤ b.timestamp ∧ b.timestamp - a.timestamp ≤ gapSecs

/-- Between two consecutive sessions (in chronological order) the gap from
the last commit of the first to the first commit of the second strictly
exceeds `gapSecs` seconds. -/
def sessionGapGT (gapSecs : Int) (s1 s2 : List Commit) : Prop :=
  ∀ a ∈ s1.getLast?, ∀ b ∈ s2.head?, gapSecs < b.timestamp - a.timestamp

end GitParser

/-- Sample commit at time 0 (witness inputs). -/
def sampleA : Commit :=
  { message := "Add parser", timestamp := 0, files_changed := 1,
    insertions := 5, deletions := 1, files := ["a.py"] }

/-- Sample commit 30 minutes after `sampleA`. -/
def sampleB : Commit :=
  { message := "Fix parser", timestamp := 1800, files_changed := 1,
    insertions := 2, deletions := 2, files := ["a.py"] }

/-- Sample commit exactly 3 hours after `sampleA`. -/
def sampleD : Commit :=
  { message := "Update docs", timestamp := 10800, files_changed := 1,
    insertions := 1, deletions := 0, files := ["d.md"] }

/-- Sample commit in hour 3 of the day. -/
def sampleH3 : Commit :=
  { message := "Improve logging", timestamp := 3 * 3600, files_changed := 1,
    insertions := 1, deletions := 0, files := ["l.py"] }

/-- Sample commit in hour 5 of the day. -/
def sampleH5 : Commit :=
  { message := "Remove dead code", timestamp := 5 * 3600, files_changed := 1,
    insertions := 0, deletions := 4, files := ["l.py"] }

namespace QualityScorer

/-- src/quality_scorer.py lines 14-18. -/
def imperative_verbs : List String :=
  ["add", "fix", "update", "remove", "refactor", "implement",
   "create", "delete", "modify", "improve", "optimize",
   "enhance", "resolve", "correct", "adjust", "integrate"]

/-- src/quality_scorer.py lines 20-23. -/
def generic_messages : List String :=
  ["update", "fix stuff", "changes", "wip", "work in progress",
   "misc", "various", "stuff", "things", "quick fix"]

/-- Python `str.lower()` (the messages involved are ASCII), on the
character list of a string. -/
def strLower (s : List Char) : List Char := s.map Char.toLower

/-- Python's `needle in hay` substring test, on character lists. -/
def containsSub (hay needle : List Char) : Bool :=
  (List.range (hay.length + 1)).any (fun i => (hay.drop i).take needle.length == needle)

/-- Helper for `splitWords`: `cur` is the current word reversed. -/
def splitWordsAux : List Char → List Char → List (List Char)
  | cur, [] => if cur = [] then [] else [cur.reverse]
  | cur, ch :: rest =>
    if ch.isWhitespace then
      if cur = [] then splitWordsAux [] rest
      else cur.reverse :: splitWordsAux [] rest
    else splitWordsAux (ch :: cur) rest

/-- Python `message.split()`: split on whitespace runs, no empty parts. -/
def splitWords (s : List Char) : List (List Char) := splitWordsAux [] s

/-- `message.split()[0].lower() if message else ""`
(src/quality_scorer.py line 75).  On a non-empty all-whitespace message the
Python expression would raise `IndexError`; such messages are unreachable
(commit messages are `.strip()`ed at line 59 of src/git_parser.py), and the
total model returns the empty word there. -/
def firstWordLower (message : String) : List Char :=
  match splitWords message.toList with
  | [] => []
  | w :: _ => strLower w

/-- `QualityScorer._score_message_quality` (src/quality_scorer.py
lines 63-91), over exact rationals; string operations are modelled on the
string's character list. -/
def score_message_quality (message : String) : ℚ :=
  let score0 : ℚ := 0.5
  let msg_length := message.toList.length
  let score1 : ℚ :=
    if 10 < msg_length ∧ msg_length < 100 then score0 + 0.15
    else if msg_length < 10 then score0 - 0.2
    else if msg_length > 150 then score0 - 0.1
    else score0
  let score2 : ℚ :=
    if firstWordLower message ∈ imperative_verbs.map String.toList then score1 + 0.20
    else score1
  let is_generic :=
    generic_messages.any (fun g => containsSub (strLower message.toList) g.toList)
  let score3 : ℚ := if is_generic then score2 - 0.15 else score2 + 0.15
  let startsUpper :=
    match message.toList with
    | [] => false
    | ch :: _ => ch.isUpper
  let score4 : ℚ := if startsUpper then score3 + 0.05 else score3
  -- message.endswith('.')
  let score5 : ℚ := if message.toList.getLast? = some '.' then score4 else score4 + 0.05
  max 0 (min 1 score5)

/-- `QualityScorer._score_size_appropriateness` (src/quality_scorer.py
lines 93-112).  The `elif files_changed > 20` branch is kept exactly as in
the source, where it is shadowed by the preceding `if files_changed > 10`. -/
def score_size_appropriateness (c : Commit) : ℚ :=
  let total_changes := c.insertions + c.deletions
  let files_changed := c.files_changed
  let size_score : ℚ :=
    if total_changes < Config.SIZE_SMALL then 1.0
    else if total_changes < Config.SIZE_MEDIUM then 0.85
    else if total_changes < Config.SIZE_LARGE then 0.65
    else 0.35
  if files_changed > 10 then size_score * 0.8
  else if files_changed > 20 then size_score * 0.6
  else size_score

/-- `f.split('/')[0] if '/' in f else ''` (src/quality_scorer.py line 121):
the characters before the first `/` when the path contains one, else the
empty name. -/
def topDir (f : String) : List Char :=
  if '/' ∈ f.toList then f.toList.takeWhile (fun ch => ¬(ch = '/')) else []

/-- `QualityScorer._score_focus` (src/quality_scorer.py lines 114-130);
the Python `set` of top-level directories is modelled by `List.dedup`
(only its cardinality is used). -/
def score_focus (c : Commit) : ℚ :=
  if c.files = [] then 0.5
  else
    let directories := ((c.files.map topDir).dedup).length
    if directories = 1 then 1.0
    else if directories ≤ 3 then 0.75
    else if directories ≤ 5 then 0.5
    else 0.3

/-- `overall = (message_score + size_score + focus_score) / 3`
(src/quality_scorer.py line 45). -/
def overall_score (c : Commit) : ℚ :=
  (score_message_quality c.message + score_size_appropriateness c + score_focus c) / 3

/-- The grade cascade of `_score_single_commit`
(src/quality_scorer.py lines 47-52). -/
def grade_of (overall : ℚ) : Char :=
  if overall ≥ Config.QUALITY_THRESHOLD_HIGH then 'A'
  else if overall ≥ Config.QUALITY_THRESHOLD_LOW then 'B'
  else 'C'

/-- Python `round(x, 2)`: round to two decimals, ties to even
(banker's rounding). -/
def round2 (q : ℚ) : ℚ :=
  let n : ℤ := ⌊q * 100⌋
  let r : ℚ := q * 100 - n
  let m : ℤ :=
    if r < 1/2 then n
    else if 1/2 < r then n + 1
    else if n % 2 = 0 then n else n + 1
  (m : ℚ) / 100

/-- `QualityScorer._generate_suggestions` (src/quality_scorer.py
lines 132-159). -/
def generate_suggestions (c : Commit) (msg_score size_score focus_score : ℚ) :
    List String :=
  let s1 : List String :=
    if msg_score < 0.6 then
      (if c.message.toList.length < 10 then ["Add more detail to commit message"] else [])
      ++ (if firstWordLower c.message ∈ imperative_verbs.map String.toList then []
          else ["Start with imperative verb (add, fix, update, etc.)"])
      ++ (if generic_messages.any (fun g => containsSub (strLower c.message.toList) g.toList)
          then ["Be more specific - avoid generic terms"] else [])
    else []
  let total_changes := c.insertions + c.deletions
  let s2 : List String :=
    if size_score < 0.6 ∧ total_changes > Config.SIZE_LARGE then
      ["Split into smaller commits"] else []
  let s3 : List String :=
    if focus_score < 0.6 ∧ c.files_changed > 10 then
      ["Commit touches many files - consider splitting"] else []
  s1 ++ s2 ++ s3

/-- The `quality_score` record returned by `_score_single_commit`
(src/quality_scorer.py lines 54-61): sub-scores and overall rounded to two
decimals, grade computed from the unrounded overall. -/
structure QualityScore where
  message_quality : ℚ
  size_appropriateness : ℚ
  focus : ℚ
  overall : ℚ
  grade : Char
  suggestions : List String
deriving DecidableEq, Repr

/-- `QualityScorer._score_single_commit` (src/quality_scorer.py lines 37-61). -/
def score_single_commit (c : Commit) : QualityScore :=
  let message_score := score_message_quality c.message
  let size_score := score_size_appropriateness c
  let focus_score := score_focus c
  { message_quality := round2 message_score
    size_appropriateness := round2 size_score
    focus := round2 focus_score
    overall := round2 (overall_score c)
    grade := grade_of (overall_score c)
    suggestions := generate_suggestions c message_score size_score focus_score }

end QualityScorer

namespace CacheManager

/-- The JSON payload written by `CacheManager.set`
(src/cache_manager.py lines 73-79); `V` is the stored response type. -/
structure CacheData (V : Type) where
  timestamp : Int
  model : String
  prompt_preview : String
  params : Option String
  response : V
deriving DecidableEq, Repr

/-- Content of one on-disk cache file: either a payload that parses, or a
malformed one (any content on which `json.load` / key access /
`datetime.fromisoformat` raises, caught at line 60 of src/cache_manager.py). -/
inductive StoredFile (V : Type) where
  | valid (d : CacheData V)
  | corrupt
deriving DecidableEq, Repr

/-- The mutable state of a `CacheManager` plus its cache directory:
`files` maps cache keys to file contents (one file per key). -/
structure CacheState (V : Type) where
  files : List (String × StoredFile V)
  hits : Nat
  misses : Nat
  enabled : Bool
deriving DecidableEq, Repr

/-- `CacheManager._generate_cache_key` (src/cache_manager.py lines 25-30)
builds `key_components` and returns its SHA-256 hex digest; `params` is
carried here already canonically serialized (`json.dumps(params,
sort_keys=True)`).  The hash of the external `hashlib` primitive is
modelled by the preimage string itself: the claims below depend only on
the key being a deterministic function of (model, prompt, params). -/
def generate_cache_key (prompt model : String) (params : Option String) : String :=
  match params with
  | none => model ++ ":" ++ prompt
  | some p => model ++ ":" ++ prompt ++ ":" ++ p

/-- `cache_file.unlink(missing_ok=True)` for the file of key `k`. -/
def removeFile {V : Type} (fs : List (String × StoredFile V)) (k : String) :
    List (String × StoredFile V) :=
  fs.eraseP (fun e => e.1 == k)

/-- `open(cache_file, 'w')` / `json.dump`: (over)write the file of key `k`. -/
def writeFile {V : Type} (fs : List (String × StoredFile V)) (k : String)
    (f : StoredFile V) : List (String × StoredFile V) :=
  (k, f) :: removeFile fs k

/-- `max_age = max_age_hours or Config.CACHE_MAX_AGE_HOURS`
(src/cache_manager.py line 49): Python `or` falls back on `None` and on
the falsy `0`. -/
def resolveMaxAge (max_age_hours : Option Int) : Int :=
  match max_age_hours with
  | none => Config.CACHE_MAX_AGE_HOURS
  | some n => if n = 0 then Config.CACHE_MAX_AGE_HOURS else n

/-- `CacheManager.get` (src/cache_manager.py lines 32-63), with the clock
`now` explicit.  Returns the retrieved value and the successor state.
A stale entry returns `None` and counts a miss but its file is NOT removed
(lines 53-55 contain no `unlink`); only the corrupt-entry handler at
lines 60-63 deletes the file. -/
def get {V : Type} (st : CacheState V) (prompt model : String)
    (params : Option String) (max_age_hours : Option Int) (now : Int) :
    Option V × CacheState V :=
  if st.enabled = false then (none, st)
  else
    let key := generate_cache_key prompt model params
    match List.lookup key st.files with
    | none => (none, { st with misses := st.misses + 1 })
    | some .corrupt =>
        (none, { st with files := removeFile st.files key, misses := st.misses + 1 })
    | some (.valid d) =>
        let max_age := resolveMaxAge max_age_hours
        let age := now - d.timestamp
        if 3600 * max_age < age then
          (none, { st with misses := st.misses + 1 })
        else
          (some d.response, { st with hits := st.hits + 1 })

/-- `CacheManager.set` (src/cache_manager.py lines 65-85); the write is
modelled as succeeding (a failing write is swallowed by the source and
leaves the directory unchanged, which no claim below concerns). -/
def set {V : Type} (st : CacheState V) (prompt model : String) (response : V)
    (params : Option String) (now : Int) : CacheState V :=
  if st.enabled = false then st
  else
    let key := generate_cache_key prompt model params
    { st with
        files := writeFile st.files key
          (.valid { timestamp := now, model := model,
                    prompt_preview := prompt.take 200, params := params,
                    response := response }) }

end CacheManager

/-- Sample cache payload (witness inputs); its key for prompt `"p"`,
model `"m"`, no params is `"m:p"`. -/
def sampleEntry : CacheManager.CacheData Nat :=
  { timestamp := 0, model := "m", prompt_preview := "p", params := none, response := 42 }

/-- Enabled cache state holding one valid entry under key `"m:p"`. -/
def sampleCache : CacheManager.CacheState Nat :=
  { files := [("m:p", CacheManager.StoredFile.valid sampleEntry)],
    hits := 0, misses := 0, enabled := true }

/-- Enabled cache state holding one corrupt entry under key `"m:p"`. -/
def sampleCacheCorrupt : CacheManager.CacheState Nat :=
  { files := [("m:p", CacheManager.StoredFile.corrupt)],
    hits := 0, misses := 0, enabled := true }

/-- Enabled cache state with an empty cache directory. -/
def sampleCacheEmpty : CacheManager.CacheState Nat :=
  { files := [], hits := 0, misses := 0, enabled := true }

/-! ## Session segmentation lemmas -/

open GitParser in
lemma flatten_sessionsAux (gs : Int) :
    ∀ (l : List Commit) (p : Commit) (ps : List Commit),
      (sessionsAux gs p ps l).flatten = (p :: ps).reverse ++ l := by
  intro l
  induction l with
  | nil => intro p ps; simp [sessionsAux]
  | cons c rest ih =>
    intro p ps
    by_cases h : gs < c.timestamp - p.timestamp
    · simp [sessionsAux, h, ih c []]
    · simp [sessionsAux, h, ih c (p :: ps)]

open GitParser in
lemma ne_nil_of_mem_sessionsAux (gs : Int) :
    ∀ (l : List Commit) (p : Commit) (ps : List Commit),
      ∀ s ∈ sessionsAux gs p ps l, s ≠ [] := by
  intro l
  induction l with
  | nil =>
    intro p ps s hs
    simp [sessionsAux] at hs
    simp [hs]
  | cons c rest ih =>
    intro p ps s hs
    by_cases h : gs < c.timestamp - p.timestamp
    · simp only [sessionsAux, if_pos h, List.mem_cons] at hs
      rcases hs with hs | hs
      · simp [hs]
      · exact ih c [] s hs
    · simp only [sessionsAux, if_neg h] at hs
      exact ih c (p :: ps) s hs

open GitParser in
lemma chain'_of_mem_sessionsAux (gs : Int) :
    ∀ (l : List Commit) (p : Commit) (ps : List Commit),
      List.Chain' (withinSession gs) ((p :: ps).reverse) →
      List.Chain' timeLE (p :: l) →
      ∀ s ∈ sessionsAux gs p ps l, List.Chain' (withinSession gs) s := by
  intro l
  induction l with
  | nil =>
    intro p ps hcur _ s hs
    simp only [sessionsAux, List.mem_singleton] at hs
    exact hs ▸ hcur
  | cons c rest ih =>
    intro p ps hcur hsort s hs
    rw [List.chain'_cons'] at hsort
    by_cases h : gs < c.timestamp - p.timestamp
    · simp only [sessionsAux, if_pos h, List.mem_cons] at hs
      rcases hs with hs | hs
      · exact hs ▸ hcur
      · exact ih c [] (by simp) hsort.2 s hs
    · simp only [sessionsAux, if_neg h] at hs
      refine ih c (p :: ps) ?_ hsort.2 s hs
      rw [List.reverse_cons]
      rw [List.chain'_append]
      refine ⟨hcur, by simp, ?_⟩
      intro x hx y hy
      rw [List.getLast?_reverse] at hx
      simp only [List.head?_cons, Option.mem_some_iff] at hx
      simp only [List.head?_cons, Option.mem_some_iff] at hy
      subst hx; subst hy
      exact ⟨hsort.1 c rfl, le_of_not_lt h⟩

open GitParser in
lemma head_sessionsAux (gs : Int) :
    ∀ (l : List Commit) (p : Commit) (ps : List Commit),
      ∃ s t, sessionsAux gs p ps l = s :: t ∧ s.head? = (p :: ps).getLast? := by
  intro l
  induction l with
  | nil =>
    intro p ps
    exact ⟨(p :: ps).reverse, [], rfl, List.head?_reverse _⟩
  | cons c rest ih =>
    intro p ps
    by_cases h : gs < c.timestamp - p.timestamp
    · refine ⟨(p :: ps).reverse, sessionsAux gs c [] rest, ?_, List.head?_reverse _⟩
      simp [sessionsAux, h]
    · obtain ⟨s, t, heq, hh⟩ := ih c (p :: ps)
      refine ⟨s, t, ?_, ?_⟩
      · simp [sessionsAux, h, heq]
      · rw [hh, List.getLast?_cons_cons]

open GitParser in
lemma chain'_gap_sessionsAux (gs : Int) :
    ∀ (l : List Commit) (p : Commit) (ps : List Commit),
      List.Chain' (sessionGapGT gs) (sessionsAux gs p ps l) := by
  intro l
  induction l with
  | nil => intro p ps; simp [sessionsAux]
  | cons c rest ih =>
    intro p ps
    by_cases h : gs < c.timestamp - p.timestamp
    · simp only [sessionsAux, if_pos h]
      rw [List.chain'_cons']
      refine ⟨?_, ih c []⟩
      intro y hy
      obtain ⟨s, t, heq, hh⟩ := head_sessionsAux gs rest c []
      rw [heq] at hy
      simp only [List.head?_cons, Option.mem_some_iff] at hy
      subst hy
      intro a ha b hb
      rw [List.getLast?_reverse] at ha
      simp only [List.head?_cons, Option.mem_some_iff] at ha
      rw [hh] at hb
      simp only [List.getLast?_singleton, Option.mem_some_iff] at hb
      subst ha; subst hb
      exact h
    · simp only [sessionsAux, if_neg h]
      exact ih c (p :: ps)

open GitParser in
lemma sorted_chain'_of_sort (commits : List Commit) (c : Commit) (rest : List Commit)
    (hs : sortByTimestamp commits = c :: rest) : List.Chain' timeLE (c :: rest) := by
  have h := List.sorted_insertionSort timeLE commits
  rw [show List.insertionSort timeLE commits = sortByTimestamp commits from rfl, hs] at h
  exact h.chain'

/-- C1: for every commit list and gap threshold, `group_into_sessions`
returns a partition of its input: the concatenation of the returned
sessions is a permutation of the input list (every input commit occurs in
exactly one session, with its input multiplicity, and nothing else
occurs), and no returned session is empty. -/
theorem group_into_sessions_partition (commits : List Commit) (g : Int) :
    (List.flatten (GitParser.group_into_sessions commits g)).Perm commits ∧
    ∀ s ∈ GitParser.group_into_sessions commits g, s ≠ [] := by
  have hperm : (GitParser.sortByTimestamp commits).Perm commits :=
    List.perm_insertionSort GitParser.timeLE commits
  unfold GitParser.group_into_sessions
  cases hs : GitParser.sortByTimestamp commits with
  | nil =>
    rw [hs] at hperm
    constructor
    · simpa using hperm
    · simp
  | cons c rest =>
    rw [hs] at hperm
    constructor
    · refine ((List.reverse_perm _).flatten.trans ?_)
      rw [flatten_sessionsAux (3600 * g) rest c []]
      simpa using hperm
    · intro s hs'
      rw [List.mem_reverse] at hs'
      exact ne_nil_of_mem_sessionsAux (3600 * g) rest c [] s hs'

/-- C1 witness: the partition property evaluated on a concrete two-commit
input. -/
theorem group_into_sessions_partition_witness :
    (List.flatten (GitParser.group_into_sessions [sampleA, sampleB] 3)).Perm
      [sampleA, sampleB] ∧ ([sampleA, sampleB] : List Commit) ≠ [] :=
  ⟨(group_into_sessions_partition [sampleA, sampleB] 3).1,
   (group_into_sessions_partition [sampleA, sampleB] 3).2 [sampleA, sampleB] (by decide)⟩

/-- C2: in the output of `group_into_sessions`, commits adjacent inside a
session are in chronological order with a gap of at most the threshold;
consecutive sessions (taken in chronological order, i.e. the reverse of
the returned most-recent-first order) are separated by strictly more than
the threshold; and two commits whose gap equals the threshold exactly end
up in one common session (the comparison is strict `>`). -/
theorem group_into_sessions_gaps (commits : List Commit) (g : Int) :
    (∀ s ∈ GitParser.group_into_sessions commits g,
        List.Chain' (GitParser.withinSession (3600 * g)) s) ∧
    List.Chain' (GitParser.sessionGapGT (3600 * g))
      (GitParser.group_into_sessions commits g).reverse ∧
    (∀ c1 c2 : Commit, c1.timestamp ≤ c2.timestamp →
        c2.timestamp - c1.timestamp = 3600 * g →
        GitParser.group_into_sessions [c1, c2] g = [[c1, c2]]) := by
  refine ⟨?_, ?_, ?_⟩
  · unfold GitParser.group_into_sessions
    cases hs : GitParser.sortByTimestamp commits with
    | nil => simp
    | cons c rest =>
      intro s hs'
      rw [List.mem_reverse] at hs'
      exact chain'_of_mem_sessionsAux (3600 * g) rest c [] (by simp)
        (sorted_chain'_of_sort commits c rest hs) s hs'
  · unfold GitParser.group_into_sessions
    cases hs : GitParser.sortByTimestamp commits with
    | nil => simp
    | cons c rest =>
      rw [List.reverse_reverse]
      exact chain'_gap_sessionsAux (3600 * g) rest c []
  · intro c1 c2 h1 h2
    unfold GitParser.group_into_sessions GitParser.sortByTimestamp
    simp only [List.insertionSort, List.orderedInsert]
    rw [if_pos (show GitParser.timeLE c1 c2 from h1)]
    simp [GitParser.sessionsAux, h2]

/-- C2 witness: the gap properties evaluated on concrete inputs; the
commits of the second conjunct are separated by exactly the 3-hour
threshold and stay in one session. -/
theorem group_into_sessions_gaps_witness :
    List.Chain' (GitParser.withinSession (3600 * 3)) [sampleA, sampleB] ∧
    GitParser.group_into_sessions [sampleA, sampleD] 3 = [[sampleA, sampleD]] :=
  ⟨(group_into_sessions_gaps [sampleA, sampleB] 3).1 [sampleA, sampleB] (by decide),
   (group_into_sessions_gaps [] 3).2.2 sampleA sampleD (by decide) (by decide)⟩

open GitParser in
lemma sessionsAux_of_neg (gs : Int) (hgs : gs < 0) :
    ∀ (l : List Commit) (p : Commit),
      List.Chain' timeLE (p :: l) →
      sessionsAux gs p [] l = (p :: l).map (fun c => [c]) := by
  intro l
  induction l with
  | nil => intro p _; simp [sessionsAux]
  | cons c rest ih =>
    intro p hsort
    rw [List.chain'_cons'] at hsort
    have hle : p.timestamp ≤ c.timestamp := hsort.1 c rfl
    have h : gs < c.timestamp - p.timestamp := lt_of_lt_of_le hgs (by omega)
    simp only [sessionsAux, if_pos h, List.reverse_singleton, List.map_cons]
    rw [ih c hsort.2]
    simp

/-- C9 counterexample: at the negative gap threshold `-1` the code does
not fail; it silently returns a segmentation (two singleton sessions,
most recent first). -/
theorem group_into_sessions_negative_gap_cex :
    GitParser.group_into_sessions [sampleA, sampleB] (-1) = [[sampleB], [sampleA]] := by
  decide

/-- C9 amended: a negative gap threshold is accepted without any check
(`group_into_sessions` performs no validation and raises nothing); every
gap between sorted consecutive commits is nonnegative and hence strictly
exceeds the negative threshold, so the result is one singleton session
per commit, most recent first. -/
theorem group_into_sessions_negative_gap (commits : List Commit) (g : Int)
    (hg : g < 0) :
    GitParser.group_into_sessions commits g =
      ((GitParser.sortByTimestamp commits).map (fun c => [c])).reverse := by
  have hgs : 3600 * g < 0 := by omega
  unfold GitParser.group_into_sessions
  cases hs : GitParser.sortByTimestamp commits with
  | nil => simp
  | cons c rest =>
    show (GitParser.sessionsAux (3600 * g) c [] rest).reverse = _
    rw [sessionsAux_of_neg (3600 * g) hgs rest c (sorted_chain'_of_sort commits c rest hs)]

/-- C9 witness: the amended statement evaluated at a concrete two-commit
input and threshold `-1`. -/
theorem group_into_sessions_negative_gap_witness :
    GitParser.group_into_sessions [sampleA, sampleB] (-1) =
      ((GitParser.sortByTimestamp [sampleA, sampleB]).map (fun c => [c])).reverse :=
  group_into_sessions_negative_gap [sampleA, sampleB] (-1) (by decide)

/-! ## Peak-hour selection -/

open GitParser in
lemma maxByCount_spec :
    ∀ (xs : List (Nat × Nat)) (best : Nat × Nat),
      (maxByCount best xs = best ∧ ∀ y ∈ xs, y.2 ≤ best.2) ∨
      (∃ l1 y l2, xs = l1 ++ y :: l2 ∧ maxByCount best xs = y ∧ best.2 < y.2 ∧
        (∀ z ∈ l1, z.2 < y.2) ∧ (∀ z ∈ l2, z.2 ≤ y.2)) := by
  intro xs
  induction xs with
  | nil => intro best; exact Or.inl ⟨rfl, by simp⟩
  | cons x xs ih =>
    intro best
    by_cases hx : best.2 < x.2
    · rcases ih x with ⟨hr, hall⟩ | ⟨l1, y, l2, hdec, hr, hlt, h1, h2⟩
      · refine Or.inr ⟨[], x, xs, by simp, ?_, hx, by simp, hall⟩
        simp [maxByCount, hx, hr]
      · refine Or.inr ⟨x :: l1, y, l2, by simp [hdec], ?_, lt_trans hx hlt, ?_, h2⟩
        · simp [maxByCount, hx, hr]
        · intro z hz
          rcases List.mem_cons.mp hz with hz | hz
          · exact hz ▸ hlt
          · exact h1 z hz
    · rcases ih best with ⟨hr, hall⟩ | ⟨l1, y, l2, hdec, hr, hlt, h1, h2⟩
      · refine Or.inl ⟨by simp [maxByCount, hx, hr], ?_⟩
        intro y hy
        rcases List.mem_cons.mp hy with hy | hy
        · exact hy ▸ le_of_not_lt hx
        · exact hall y hy
      · refine Or.inr ⟨x :: l1, y, l2, by simp [hdec], ?_, hlt, ?_, h2⟩
        · simp [maxByCount, hx, hr]
        · intro z hz
          rcases List.mem_cons.mp hz with hz | hz
          · exact hz ▸ lt_of_le_of_lt (le_of_not_lt hx) hlt
          · exact h1 z hz

open GitParser in
lemma foldl_insertKey_ne_nil :
    ∀ (t : List Commit) (ks : List Nat), ks ≠ [] →
      t.foldl (fun ks c => insertKey ks (hourOf c)) ks ≠ [] := by
  intro t
  induction t with
  | nil => intro ks h; exact h
  | cons c rest ih =>
    intro ks h
    refine ih (insertKey ks (hourOf c)) ?_
    unfold insertKey
    by_cases hm : hourOf c ∈ ks
    · simpa [hm] using h
    · simp [hm]

open GitParser in
lemma hourItems_snd (commits : List Commit) :
    ∀ z ∈ hourItems commits, z.2 = hourCount commits z.1 := by
  intro z hz
  unfold hourItems at hz
  obtain ⟨k, _, hk⟩ := List.mem_map.mp hz
  subst hk
  rfl

/-- C5 counterexample: two commits whose hours (5 and 3) tie at one count
each.  The code returns the hour whose commit appears first in the input
list, not the first hour in ascending natural order, and the result
changes when the input order changes. -/
theorem peak_hour_tie_cex :
    GitParser.peak_hour [sampleH5, sampleH3] = 5 ∧
    GitParser.peak_hour [sampleH3, sampleH5] = 3 ∧
    GitParser.hourCount [sampleH5, sampleH3] 3 =
      GitParser.hourCount [sampleH5, sampleH3] 5 := by
  decide

/-- C5 amended: on a non-empty commit list, `peak_hour` returns a
maximal-count hour, with ties broken by dict insertion order — the hour
whose first commit occurs earliest in the input list — rather than by
ascending natural hour order: in `hours.items()` every entry before the
returned one has a strictly smaller count, and every entry after it has a
count at most the returned one's. -/
theorem peak_hour_first_max (commits : List Commit) (hne : commits ≠ []) :
    ∃ pre post,
      GitParser.hourItems commits =
        pre ++ (GitParser.peak_hour commits,
                GitParser.hourCount commits (GitParser.peak_hour commits)) :: post ∧
      (∀ z ∈ pre, z.2 < GitParser.hourCount commits (GitParser.peak_hour commits)) ∧
      (∀ z ∈ post, z.2 ≤ GitParser.hourCount commits (GitParser.peak_hour commits)) := by
  have hkeys : GitParser.hourKeys commits ≠ [] := by
    cases commits with
    | nil => exact absurd rfl hne
    | cons c t =>
      unfold GitParser.hourKeys
      have : GitParser.insertKey [] (GitParser.hourOf c) = [GitParser.hourOf c] := by
        simp [GitParser.insertKey]
      rw [List.foldl_cons, this]
      exact foldl_insertKey_ne_nil t [GitParser.hourOf c] (by simp)
  cases hitems : GitParser.hourItems commits with
  | nil =>
    exfalso
    apply hkeys
    unfold GitParser.hourItems at hitems
    exact List.map_eq_nil_iff.mp hitems
  | cons x xs =>
    have hpeak : GitParser.peak_hour commits = (GitParser.maxByCount x xs).1 := by
      unfold GitParser.peak_hour
      rw [hitems]
    rcases maxByCount_spec xs x with ⟨hr, hall⟩ | ⟨l1, y, l2, hdec, hr, hlt, h1, h2⟩
    · have hx : x ∈ GitParser.hourItems commits := by rw [hitems]; exact List.mem_cons_self x xs
      have hx2 : x.2 = GitParser.hourCount commits x.1 := hourItems_snd commits x hx
      refine ⟨[], xs, ?_, by simp, ?_⟩
      · rw [hpeak, hr, ← hx2]
        simp
      · intro z hz
        rw [hpeak, hr, ← hx2]
        exact hall z hz
    · have hy : y ∈ GitParser.hourItems commits := by
        rw [hitems, hdec]
        simp
      have hy2 : y.2 = GitParser.hourCount commits y.1 := hourItems_snd commits y hy
      refine ⟨x :: l1, l2, ?_, ?_, ?_⟩
      · rw [hdec, hpeak, hr, ← hy2]
        simp
      · intro z hz
        rw [hpeak, hr, ← hy2]
        rcases List.mem_cons.mp hz with hz | hz
        · exact hz ▸ hlt
        · exact h1 z hz
      · intro z hz
        rw [hpeak, hr, ← hy2]
        exact h2 z hz

/-- C5 witness: the amended first-max property evaluated on a concrete
non-empty input. -/
theorem peak_hour_first_max_witness :
    ∃ pre post,
      GitParser.hourItems [sampleH5, sampleH3] =
        pre ++ (GitParser.peak_hour [sampleH5, sampleH3],
                GitParser.hourCount [sampleH5, sampleH3]
                  (GitParser.peak_hour [sampleH5, sampleH3])) :: post ∧
      (∀ z ∈ pre, z.2 < GitParser.hourCount [sampleH5, sampleH3]
          (GitParser.peak_hour [sampleH5, sampleH3])) ∧
      (∀ z ∈ post, z.2 ≤ GitParser.hourCount [sampleH5, sampleH3]
          (GitParser.peak_hour [sampleH5, sampleH3])) :=
  peak_hour_first_max [sampleH5, sampleH3] (by decide)

/-! ## Quality scorer -/

open QualityScorer in
lemma score_message_quality_bounds (m : String) :
    0 ≤ score_message_quality m ∧ score_message_quality m ≤ 1 := by
  simp only [score_message_quality]
  exact ⟨le_max_left 0 _, max_le (by norm_num) (min_le_left 1 _)⟩

open QualityScorer in
lemma score_size_appropriateness_bounds (c : Commit) :
    0 ≤ score_size_appropriateness c ∧ score_size_appropriateness c ≤ 1 := by
  refine ⟨?_, ?_⟩ <;>
    (simp only [score_size_appropriateness]; split_ifs <;> norm_num)

open QualityScorer in
lemma score_focus_bounds (c : Commit) :
    0 ≤ score_focus c ∧ score_focus c ≤ 1 := by
  refine ⟨?_, ?_⟩ <;>
    (simp only [score_focus]; split_ifs <;> norm_num)

open QualityScorer in
lemma round2_bounds (q : ℚ) (h0 : 0 ≤ q) (h1 : q ≤ 1) :
    0 ≤ round2 q ∧ round2 q ≤ 1 := by
  simp only [round2]
  have hn0 : (0 : ℤ) ≤ ⌊q * 100⌋ := Int.floor_nonneg.mpr (by positivity)
  have hn1 : ⌊q * 100⌋ ≤ 100 := by
    have h : q * 100 ≤ (100 : ℚ) := by linarith
    have h2 := Int.floor_le_floor h
    simpa using h2
  have hq0 : (0 : ℚ) ≤ (⌊q * 100⌋ : ℚ) := by exact_mod_cast hn0
  have hq1 : ((⌊q * 100⌋ : ℤ) : ℚ) ≤ 100 := by exact_mod_cast hn1
  have hfl : (⌊q * 100⌋ : ℚ) ≤ q * 100 := Int.floor_le _
  have h99 : ¬(q * 100 - (⌊q * 100⌋ : ℚ) < 1/2) → ((⌊q * 100⌋ : ℤ) : ℚ) ≤ 99 := by
    intro hcond
    by_contra hc
    push_neg at hc hcond
    have hcint : (99 : ℤ) < ⌊q * 100⌋ := by exact_mod_cast hc
    have hge : (100 : ℤ) ≤ ⌊q * 100⌋ := hcint
    have h100 : (100 : ℚ) ≤ (⌊q * 100⌋ : ℚ) := by exact_mod_cast hge
    linarith
  constructor
  · split_ifs <;> (refine div_nonneg ?_ (by norm_num)) <;> push_cast <;> linarith
  · split_ifs with hc1 hc2 hc3 <;> rw [div_le_one (by norm_num)] <;> push_cast
    · linarith
    · have := h99 hc1; linarith
    · linarith
    · have := h99 hc1; linarith

open QualityScorer in
lemma grade_of_spec (x : ℚ) :
    (grade_of x = 'A' ↔ Config.QUALITY_THRESHOLD_HIGH ≤ x) ∧
    (grade_of x = 'B' ↔ Config.QUALITY_THRESHOLD_LOW ≤ x ∧
      x < Config.QUALITY_THRESHOLD_HIGH) ∧
    (grade_of x = 'C' ↔ x < Config.QUALITY_THRESHOLD_LOW) := by
  have hlh : Config.QUALITY_THRESHOLD_LOW < Config.QUALITY_THRESHOLD_HIGH := by
    norm_num [Config.QUALITY_THRESHOLD_LOW, Config.QUALITY_THRESHOLD_HIGH]
  unfold grade_of
  split_ifs with h1 h2
  · exact ⟨⟨fun _ => h1, fun _ => rfl⟩,
      ⟨fun h => absurd h (by decide), fun h => absurd h1 (not_le.mpr h.2)⟩,
      ⟨fun h => absurd h (by decide),
       fun h => absurd h (not_lt.mpr (le_trans (le_of_lt hlh) h1))⟩⟩
  · exact ⟨⟨fun h => absurd h (by decide), fun h => absurd h h1⟩,
      ⟨fun _ => ⟨h2, lt_of_not_le h1⟩, fun _ => rfl⟩,
      ⟨fun h => absurd h (by decide), fun h => absurd h (not_lt.mpr h2)⟩⟩
  · exact ⟨⟨fun h => absurd h (by decide), fun h => absurd h h1⟩,
      ⟨fun h => absurd h (by decide), fun h => absurd h.1 h2⟩,
      ⟨fun _ => lt_of_not_le h2, fun _ => rfl⟩⟩

/-- C4: every recorded sub-score and the recorded overall score of
`_score_single_commit` lies in [0,1], and the letter grade agrees with the
overall score (the mean of the three sub-scores, from which the source
computes the grade) against the configured thresholds: `A` iff
overall ≥ 0.8, `B` iff 0.6 ≤ overall < 0.8, `C` iff overall < 0.6. -/
theorem quality_score_bounds_and_grade (c : Commit) :
    (0 ≤ (QualityScorer.score_single_commit c).message_quality ∧
      (QualityScorer.score_single_commit c).message_quality ≤ 1) ∧
    (0 ≤ (QualityScorer.score_single_commit c).size_appropriateness ∧
      (QualityScorer.score_single_commit c).size_appropriateness ≤ 1) ∧
    (0 ≤ (QualityScorer.score_single_commit c).focus ∧
      (QualityScorer.score_single_commit c).focus ≤ 1) ∧
    (0 ≤ (QualityScorer.score_single_commit c).overall ∧
      (QualityScorer.score_single_commit c).overall ≤ 1) ∧
    ((QualityScorer.score_single_commit c).grade = 'A' ↔
      Config.QUALITY_THRESHOLD_HIGH ≤ QualityScorer.overall_score c) ∧
    ((QualityScorer.score_single_commit c).grade = 'B' ↔
      Config.QUALITY_THRESHOLD_LOW ≤ QualityScorer.overall_score c ∧
        QualityScorer.overall_score c < Config.QUALITY_THRESHOLD_HIGH) ∧
    ((QualityScorer.score_single_commit c).grade = 'C' ↔
      QualityScorer.overall_score c < Config.QUALITY_THRESHOLD_LOW) := by
  obtain ⟨hm0, hm1⟩ := score_message_quality_bounds c.message
  obtain ⟨hs0, hs1⟩ := score_size_appropriateness_bounds c
  obtain ⟨hf0, hf1⟩ := score_focus_bounds c
  have hov : 0 ≤ QualityScorer.overall_score c ∧ QualityScorer.overall_score c ≤ 1 := by
    unfold QualityScorer.overall_score
    constructor <;> linarith
  have hg := grade_of_spec (QualityScorer.overall_score c)
  have e1 : (QualityScorer.score_single_commit c).message_quality =
      QualityScorer.round2 (QualityScorer.score_message_quality c.message) := rfl
  have e2 : (QualityScorer.score_single_commit c).size_appropriateness =
      QualityScorer.round2 (QualityScorer.score_size_appropriateness c) := rfl
  have e3 : (QualityScorer.score_single_commit c).focus =
      QualityScorer.round2 (QualityScorer.score_focus c) := rfl
  have e4 : (QualityScorer.score_single_commit c).overall =
      QualityScorer.round2 (QualityScorer.overall_score c) := rfl
  have e5 : (QualityScorer.score_single_commit c).grade =
      QualityScorer.grade_of (QualityScorer.overall_score c) := rfl
  rw [e1, e2, e3, e4, e5]
  exact ⟨round2_bounds _ hm0 hm1, round2_bounds _ hs0 hs1, round2_bounds _ hf0 hf1,
    round2_bounds _ hov.1 hov.2, hg.1, hg.2.1, hg.2.2⟩

open QualityScorer in
lemma fix_message_score_eval : score_message_quality "fix" = 0.7 := by
  have h1 : ¬(10 < "fix".toList.length ∧ "fix".toList.length < 100) := by decide
  have h2 : "fix".toList.length < 10 := by decide
  have h3 : firstWordLower "fix" ∈ List.map String.toList imperative_verbs := by decide
  have h4 : (generic_messages.any fun g =>
      containsSub (strLower "fix".toList) g.toList) = false := by decide
  have h5 : (match "fix".toList with
      | [] => false
      | ch :: _ => ch.isUpper) = false := by decide
  have h6 : ¬("fix".toList.getLast? = some '.') := by decide
  simp only [score_message_quality, h1, h2, h3, h4, h5, h6,
    if_true, if_false, ite_true, ite_false]
  norm_num [max_def, min_def]

open QualityScorer in
lemma good_message_score_eval :
    score_message_quality
      "Add retry logic with exponential backoff for flaky network calls" = 1 := by
  have h1 : (10 < "Add retry logic with exponential backoff for flaky network calls".toList.length ∧
      "Add retry logic with exponential backoff for flaky network calls".toList.length < 100) := by
    decide
  have h3 : firstWordLower
      "Add retry logic with exponential backoff for flaky network calls" ∈
      List.map String.toList imperative_verbs := by decide
  have h4 : (generic_messages.any fun g =>
      containsSub (strLower
        "Add retry logic with exponential backoff for flaky network calls".toList) g.toList)
      = false := by decide
  have h5 : (match "Add retry logic with exponential backoff for flaky network calls".toList with
      | [] => false
      | ch :: _ => ch.isUpper) = true := by decide
  have h6 : ¬("Add retry logic with exponential backoff for flaky network calls".toList.getLast?
      = some '.') := by decide
  simp only [score_message_quality, h1, h3, h4, h5, h6,
    if_true, if_false, ite_true, ite_false]
  norm_num [max_def, min_def]

/-- C7 counterexample: the message `"fix"` does NOT score below 0.5: its
first word is in the imperative-verb vocabulary (+0.20) and no entry of
the generic-phrase list (`"fix stuff"`, `"quick fix"`, ... — but not the
bare `"fix"`) is a substring of it (+0.15), so the score is 0.7. -/
theorem message_quality_fix_cex :
    ¬(QualityScorer.score_message_quality "fix" < 0.5) := by
  rw [fix_message_score_eval]
  norm_num

/-- C7 amended: `"fix"` receives message-quality 0.7 (at least 0.5, not
below it: `-0.2` for being short, but `+0.20` imperative verb, `+0.15`
not generic, `+0.05` no trailing period), while
`"Add retry logic with exponential backoff for flaky network calls"`
receives 1.0, which is strictly above 0.85 as the claim states. -/
theorem message_quality_examples :
    QualityScorer.score_message_quality "fix" = 0.7 ∧
    (0.5 : ℚ) ≤ QualityScorer.score_message_quality "fix" ∧
    QualityScorer.score_message_quality
      "Add retry logic with exponential backoff for flaky network calls" = 1 ∧
    (0.85 : ℚ) < QualityScorer.score_message_quality
      "Add retry logic with exponential backoff for flaky network calls" := by
  refine ⟨fix_message_score_eval, ?_, good_message_score_eval, ?_⟩
  · rw [fix_message_score_eval]; norm_num
  · rw [good_message_score_eval]; norm_num

/-- C6: a commit whose changed-file count (25) exceeds both file-count
penalty tiers receives the MILDER multiplier 0.8, not the stricter 0.6:
in `_score_size_appropriateness` the branch `elif files_changed > 20`
(multiplier 0.6) is unreachable because `if files_changed > 10` already
captures every such commit.  The commit here has 15 changed lines
(base tier score 1.0) and 25 files, and scores 1.0 * 0.8 = 0.8. -/
theorem size_score_shadowed_tier :
    QualityScorer.score_size_appropriateness
      { message := "Refactor module layout", timestamp := 0, files_changed := 25,
        insertions := 10, deletions := 5, files := [] } = 0.8 ∧
    ¬(QualityScorer.score_size_appropriateness
      { message := "Refactor module layout", timestamp := 0, files_changed := 25,
        insertions := 10, deletions := 5, files := [] } = 1.0 * 0.6) := by
  have h : QualityScorer.score_size_appropriateness
      { message := "Refactor module layout", timestamp := 0, files_changed := 25,
        insertions := 10, deletions := 5, files := [] } = 0.8 := by
    unfold QualityScorer.score_size_appropriateness
    norm_num [Config.SIZE_SMALL]
  rw [h]
  norm_num

/-! ## Cache manager -/

/-- C3 counterexample: a STALE entry's file is NOT deleted by the failed
read.  State: one valid entry written at time 0; reading at time 7200 s
with `max_age_hours = 1` returns `None` and counts a miss, but the file is
still present afterwards (lines 53-55 of src/cache_manager.py contain no
`unlink`; only the corrupt-entry handler deletes). -/
theorem cache_stale_not_deleted_cex :
    (CacheManager.get sampleCache "p" "m" none (some 1) 7200).1 = none ∧
    (CacheManager.get sampleCache "p" "m" none (some 1) 7200).2.misses = 1 ∧
    List.lookup (CacheManager.generate_cache_key "p" "m" none)
        (CacheManager.get sampleCache "p" "m" none (some 1) 7200).2.files =
      some (CacheManager.StoredFile.valid sampleEntry) := by
  refine ⟨rfl, rfl, rfl⟩

/-- C3 amended: with the cache enabled, a read returns `None` exactly on a
missing, corrupt, or stale entry (age strictly above the resolved maximum;
age equal to the maximum is still fresh), each such case incrementing the
miss counter; a fresh readable entry returns the stored value and
increments the hit counter; a corrupt entry's file is deleted by the
failed read, but a STALE entry's file is NOT deleted — the state keeps it
(deletion of old files happens only via the manual `clear`). -/
theorem cache_get_semantics {V : Type} (st : CacheManager.CacheState V)
    (prompt model : String) (params : Option String) (mah : Option Int) (now : Int)
    (hen : st.enabled = true) :
    (List.lookup (CacheManager.generate_cache_key prompt model params) st.files = none →
      CacheManager.get st prompt model params mah now =
        (none, { st with misses := st.misses + 1 })) ∧
    (List.lookup (CacheManager.generate_cache_key prompt model params) st.files =
        some CacheManager.StoredFile.corrupt →
      CacheManager.get st prompt model params mah now =
        (none, { st with
          files := CacheManager.removeFile st.files
            (CacheManager.generate_cache_key prompt model params),
          misses := st.misses + 1 })) ∧
    (∀ d : CacheManager.CacheData V,
      List.lookup (CacheManager.generate_cache_key prompt model params) st.files =
        some (CacheManager.StoredFile.valid d) →
      (3600 * CacheManager.resolveMaxAge mah < now - d.timestamp →
        CacheManager.get st prompt model params mah now =
          (none, { st with misses := st.misses + 1 })) ∧
      (now - d.timestamp ≤ 3600 * CacheManager.resolveMaxAge mah →
        CacheManager.get st prompt model params mah now =
          (some d.response, { st with hits := st.hits + 1 }))) := by
  refine ⟨?_, ?_, ?_⟩
  · intro h
    simp [CacheManager.get, hen, h]
  · intro h
    simp [CacheManager.get, hen, h]
  · intro d h
    constructor
    · intro hst
      simp [CacheManager.get, hen, h, hst]
    · intro hfr
      have hnl : ¬(3600 * CacheManager.resolveMaxAge mah < now - d.timestamp) :=
        not_lt.mpr hfr
      simp [CacheManager.get, hen, h, hnl]

/-- C3 witness: the three read outcomes evaluated on concrete states —
a stale read (entry from time 0 read at 7200 s with a 1-hour limit),
a corrupt read that deletes the file, and a fresh hit. -/
theorem cache_get_semantics_witness :
    CacheManager.get sampleCache "p" "m" none (some 1) 7200 =
      (none, { sampleCache with misses := 1 }) ∧
    CacheManager.get sampleCacheCorrupt "p" "m" none none 0 =
      (none, { sampleCacheCorrupt with
        files := CacheManager.removeFile sampleCacheCorrupt.files "m:p",
        misses := 1 }) ∧
    CacheManager.get sampleCache "p" "m" none none 0 =
      (some 42, { sampleCache with hits := 1 }) :=
  ⟨((cache_get_semantics sampleCache "p" "m" none (some 1) 7200 rfl).2.2
      sampleEntry rfl).1 (by decide),
   (cache_get_semantics sampleCacheCorrupt "p" "m" none none 0 rfl).2.1 rfl,
   ((cache_get_semantics sampleCache "p" "m" none none 0 rfl).2.2
      sampleEntry rfl).2 (by decide)⟩

/-- C8: with the cache enabled and a nonnegative resolved maximum age,
a `set` immediately followed by a `get` of the same (prompt, model,
params) key at the same clock value returns exactly the stored value. -/
theorem cache_round_trip {V : Type} (st : CacheManager.CacheState V)
    (prompt model : String) (params : Option String) (v : V) (mah : Option Int)
    (now : Int) (hen : st.enabled = true)
    (hma : 0 ≤ 3600 * CacheManager.resolveMaxAge mah) :
    (CacheManager.get (CacheManager.set st prompt model v params now)
        prompt model params mah now).1 = some v := by
  have hset : CacheManager.set st prompt model v params now =
      { st with files := (CacheManager.writeFile st.files
                  (CacheManager.generate_cache_key prompt model params)
                  (CacheManager.StoredFile.valid
                    { timestamp := now, model := model,
                      prompt_preview := prompt.take 200,
                      params := params, response := v })) } := by
    simp [CacheManager.set, hen]
  have hkey : List.lookup (CacheManager.generate_cache_key prompt model params)
      (CacheManager.writeFile st.files
        (CacheManager.generate_cache_key prompt model params)
        (CacheManager.StoredFile.valid
          { timestamp := now, model := model, prompt_preview := prompt.take 200,
            params := params, response := v })) =
      some (CacheManager.StoredFile.valid
        { timestamp := now, model := model, prompt_preview := prompt.take 200,
          params := params, response := v }) := by
    simp [CacheManager.writeFile, List.lookup]
  have hnl : ¬(3600 * CacheManager.resolveMaxAge mah < (0 : Int)) := not_lt.mpr hma
  rw [hset]
  simp [CacheManager.get, hen, hkey, hnl]

/-- C8 witness: the round trip evaluated on a concrete empty cache,
storing 7 and reading it back with the default maximum age. -/
theorem cache_round_trip_witness :
    (CacheManager.get (CacheManager.set sampleCacheEmpty "p" "m" 7 none 1000)
        "p" "m" none none 1000).1 = some 7 :=
  cache_round_trip sampleCacheEmpty "p" "m" none 7 none 1000 rfl (by decide)

/-- C10: `max_age_hours = 0` is falsy for Python's `or`, so a read with a
zero maximum age behaves exactly like a read with the configured default
of 24 hours; in particular a fresh entry (age at most 24 h) is still
returned as a hit instead of being treated as expired. -/
theorem cache_zero_max_age_fallback {V : Type} (st : CacheManager.CacheState V)
    (prompt model : String) (params : Option String) (now : Int) :
    CacheManager.get st prompt model params (some 0) now =
      CacheManager.get st prompt model params (some Config.CACHE_MAX_AGE_HOURS) now ∧
    (∀ d : CacheManager.CacheData V,
      st.enabled = true →
      List.lookup (CacheManager.generate_cache_key prompt model params) st.files =
        some (CacheManager.StoredFile.valid d) →
      now - d.timestamp ≤ 3600 * 24 →
      CacheManager.get st prompt model params (some 0) now =
        (some d.response, { st with hits := st.hits + 1 })) := by
  constructor
  · rfl
  · intro d hen h hfr
    have hz : CacheManager.resolveMaxAge (some 0) = 24 := rfl
    have hnl : ¬(3600 * CacheManager.resolveMaxAge (some 0) < now - d.timestamp) := by
      rw [hz]
      exact not_lt.mpr hfr
    simp [CacheManager.get, hen, h, hnl]

/-- C10 witness: reading a one-hour-old entry with `max_age_hours = 0`
still hits and returns the stored value. -/
theorem cache_zero_max_age_fallback_witness :
    CacheManager.get sampleCache "p" "m" none (some 0) 3600 =
      (some 42, { sampleCache with hits := 1 }) :=
  (cache_zero_max_age_fallback sampleCache "p" "m" none 3600).2
    sampleEntry rfl rfl (by decide)
